/-
  Verification of the WimPatch differential engine against its
  natural-language specification.

  The Rust sources are shallowly embedded: byte sequences are `List Nat`,
  machine integers are `Nat` (no arithmetic here ever overflows: sizes and
  counts are only compared for equality), the filesystem is an association
  list from relative paths to byte contents, and the external collaborators
  (the zstd and bsdiff compression crates, the semver comparison crate) are
  modelled by parameters carrying exactly their documented contracts.
-/
import Mathlib

namespace WimPatch

/-! ## Data model: `ImageInfo` (src/src/manifest.rs, lines 54-100)

The Rust struct derives `PartialEq`, i.e. structural equality over every
field, names included. -/

/-- Embedded from `src/src/manifest.rs`: the per-image descriptor.
`index` is `u32`; the four counters are `u64`; the five string fields are
`Option<String>`. -/
structure ImageInfo where
  index : Nat
  name : Option String
  display_name : Option String
  description : Option String
  display_description : Option String
  flags : Option String
  dir_count : Nat
  file_count : Nat
  hard_link_bytes : Nat
  total_bytes : Nat
  deriving Repr, DecidableEq

/-- Embedded from the `#[derive(PartialEq)]` on `ImageInfo`: Rust's derived
`==` compares every field pairwise. -/
def ImageInfo.beq (a b : ImageInfo) : Bool :=
  a.index == b.index
    && a.name == b.name
    && a.display_name == b.display_name
    && a.description == b.description
    && a.display_description == b.display_description
    && a.flags == b.flags
    && a.dir_count == b.dir_count
    && a.file_count == b.file_count
    && a.hard_link_bytes == b.hard_link_bytes
    && a.total_bytes == b.total_bytes

/-- Comparison described by the specification sentence behind claim C6:
only the counted fields (index and the four counters) are compared;
the name-like fields are ignored. -/
def ImageInfo.countedEq (a b : ImageInfo) : Bool :=
  a.index == b.index
    && a.dir_count == b.dir_count
    && a.file_count == b.file_count
    && a.hard_link_bytes == b.hard_link_bytes
    && a.total_bytes == b.total_bytes

/-- A concrete descriptor used in counterexamples. -/
def sampleInfoA : ImageInfo :=
  { index := 1, name := some "A", display_name := none, description := none
    display_description := none, flags := none
    dir_count := 10, file_count := 100, hard_link_bytes := 7, total_bytes := 4096 }

/-- Same counted fields as `sampleInfoA`, different `name`. -/
def sampleInfoB : ImageInfo :=
  { sampleInfoA with name := some "B" }

/-! ## Codec layer (src/src/zstdiff.rs, src/src/bsdiff.rs)

The compression cores are the external `zstd` and `bsdiff` crates; the
repository only wraps them.  They are modelled as records of functions
carrying their documented contract (`Lossless`): decoding with the same
dictionary/base inverts encoding. -/

/-- Model of the external zstd crate's dictionary codec:
`compress dict level data` and `decompress dict stream`. -/
structure ZstdLib where
  compress : List Nat → Nat → List Nat → List Nat
  decompress : List Nat → List Nat → List Nat

/-- The zstd crate's contract: a stream produced with a dictionary decodes
back to the original data under the same dictionary, at every level. -/
def ZstdLib.Lossless (z : ZstdLib) : Prop :=
  ∀ dict level data, z.decompress dict (z.compress dict level data) = data

/-- Model of the external bsdiff crate: `diff old new` and `patch old stream`. -/
structure BsdiffLib where
  diff : List Nat → List Nat → List Nat
  patch : List Nat → List Nat → List Nat

/-- The bsdiff crate's contract: applying a diff to the old bytes yields the
new bytes. -/
def BsdiffLib.Lossless (l : BsdiffLib) : Prop :=
  ∀ old upd, l.patch old (l.diff old upd) = upd

/-- A degenerate zstd instance (stores the payload verbatim); satisfies the
contract and is used to evaluate embedded code on concrete inputs. -/
def storeZstd : ZstdLib :=
  { compress := fun _ _ data => data, decompress := fun _ stream => stream }

/-- A degenerate bsdiff instance (the "diff" is the new file itself). -/
def storeBsdiff : BsdiffLib :=
  { diff := fun _ upd => upd, patch := fun _ stream => stream }

/-- Embedded from `ZstdDiff::diff` (src/src/zstdiff.rs:19): create an encoder
with `base` as dictionary at `level`, write all of `new`, finish. -/
def ZstdDiff.diff (z : ZstdLib) (base newData : List Nat) (level : Nat) : List Nat :=
  z.compress base level newData

/-- Embedded from `ZstdDiff::patch` (src/src/zstdiff.rs:38): create a decoder
with `base` as dictionary over the patch stream and read it to the end. -/
def ZstdDiff.patch (z : ZstdLib) (base patchData : List Nat) : List Nat :=
  z.decompress base patchData

/-! ## Filesystem model

An association list from path to file node; `write` shadows any earlier
binding, `read` returns the most recent one.  Directory nodes carry no data. -/

/-- A filesystem node: a regular file with its bytes, or a directory. -/
inductive Node where
  | file (data : List Nat)
  | dir
  deriving Repr, DecidableEq

/-- A flat filesystem: most recent binding first. -/
def Fs : Type := List (String × Node)

/-- Look up a path. -/
def Fs.lookup (fs : Fs) (p : String) : Option Node :=
  match fs with
  | [] => none
  | (q, n) :: rest => if q = p then some n else Fs.lookup rest p

/-- Read a regular file's bytes; `none` when absent or a directory. -/
def Fs.read (fs : Fs) (p : String) : Option (List Nat) :=
  match fs.lookup p with
  | some (Node.file d) => some d
  | _ => none

/-- Create or overwrite a regular file. -/
def Fs.write (fs : Fs) (p : String) (d : List Nat) : Fs :=
  (p, Node.file d) :: fs

/-- Create a directory entry. -/
def Fs.mkdir (fs : Fs) (p : String) : Fs :=
  (p, Node.dir) :: fs

/-- Remove every binding of a path (models file/directory deletion). -/
def Fs.remove (fs : Fs) (p : String) : Fs :=
  fs.filter (fun e => decide (e.1 ≠ p))

/-- Whether the path is bound to a directory. -/
def Fs.isDir (fs : Fs) (p : String) : Bool :=
  match fs.lookup p with
  | some Node.dir => true
  | _ => false

/-- Whether the path is bound at all (`Path::exists`). -/
def Fs.pathExists (fs : Fs) (p : String) : Bool :=
  (fs.lookup p).isSome

/-! ## File-in/file-out codec forms

`file_diff`/`file_patch` read their inputs fully before creating the output
file, which is why in-place patching (old = new path) works; the embedding
keeps that order. -/

/-- Embedded from `ZstdDiff::file_diff` (src/src/zstdiff.rs:59): read the old
file whole (the dictionary), stream the new file through an encoder into the
patch file. -/
def ZstdDiff.file_diff (z : ZstdLib) (fs : Fs) (oldPath newPath patchPath : String)
    (level : Nat) : Except String Fs :=
  match fs.read oldPath with
  | none => Except.error "Read old file failed"
  | some oldC =>
    match fs.read newPath with
    | none => Except.error "Open new file failed"
    | some newC => Except.ok (fs.write patchPath (z.compress oldC level newC))

/-- Embedded from `ZstdDiff::file_patch` (src/src/zstdiff.rs:101): read the
old file and the patch file whole, then decode and write the new file. -/
def ZstdDiff.file_patch (z : ZstdLib) (fs : Fs) (oldPath patchPath newPath : String) :
    Except String Fs :=
  match fs.read oldPath with
  | none => Except.error "Failed to read old file"
  | some oldC =>
    match fs.read patchPath with
    | none => Except.error "Failed to read patch file"
    | some patchC => Except.ok (fs.write newPath (z.decompress oldC patchC))

/-- Embedded from `BsDiff::file_diff` (src/src/bsdiff.rs:19): read both files,
write `bsdiff::diff(old, update)` to the patch file. -/
def BsDiff.file_diff (l : BsdiffLib) (fs : Fs) (oldPath newPath patchPath : String) :
    Except String Fs :=
  match fs.read oldPath with
  | none => Except.error "Read old file error"
  | some oldC =>
    match fs.read newPath with
    | none => Except.error "Read new file error"
    | some newC => Except.ok (fs.write patchPath (l.diff oldC newC))

/-- Embedded from `BsDiff::file_patch` (src/src/bsdiff.rs:44): read the old
and patch files, apply `bsdiff::patch`, write the new file. -/
def BsDiff.file_patch (l : BsdiffLib) (fs : Fs) (oldPath patchPath newPath : String) :
    Except String Fs :=
  match fs.read oldPath with
  | none => Except.error "Read old file error"
  | some oldC =>
    match fs.read patchPath with
    | none => Except.error "Open patch file error"
    | some patchC => Except.ok (fs.write newPath (l.patch oldC patchC))

/-! ## String helpers

Rust's `str::find` / `contains` over the character-list view of strings.
`findSub` returns the index of the first occurrence of `pat` in `hay`. -/

/-- First index at which `pat` occurs in `hay`, if any (model of `str::find`). -/
def findSub (hay pat : List Char) : Option Nat :=
  match hay with
  | [] => if pat = [] then some 0 else none
  | _ :: t => if pat.isPrefixOf hay then some 0 else (findSub t pat).map (· + 1)

/-- Substring containment (model of `str::contains`). -/
def containsSub (hay pat : List Char) : Bool :=
  (findSub hay pat).isSome

/-- ASCII lowercasing of a string (model of `to_ascii_lowercase` /
`to_lowercase`; all strings compared in the program are ASCII). -/
def lowerStr (s : String) : String :=
  String.mk (s.data.map Char.toLower)

/-! ## Command-line enums (src/src/cli.rs) -/

/-- Embedded from `enum Storage` in src/src/cli.rs. -/
inductive Storage where
  | full
  | zstd
  | bsdiff
  deriving Repr, DecidableEq

/-- Embedded from `enum Preset` in src/src/cli.rs. -/
inductive Preset where
  | fast
  | medium
  | best
  | extreme
  deriving Repr, DecidableEq

/-- Embedded from the preset→level match in `create_operations`
(src/src/patch.rs:1311-1316): Fast→3, Medium→9, Best→19, Extreme→22. -/
def Preset.level : Preset → Nat
  | Preset.fast => 3
  | Preset.medium => 9
  | Preset.best => 19
  | Preset.extreme => 22

/-- Embedded from the storage→string match in `create_operations`
(src/src/patch.rs:1290-1294). -/
def Storage.name : Storage → String
  | Storage.full => "full"
  | Storage.zstd => "zstd"
  | Storage.bsdiff => "bsdiff"

/-! ## Operations and the manifest as used by patch.rs

`patch.rs` imports `Action`, `Operation` and a `PatchManifest` carrying
`base_image_guid` / `target_image_guid` from `crate::manifest`, but the copy
of `manifest.rs` under `src/` is an older revision without them; their shape
below follows the spec (§3) and every use in `patch.rs`. -/

/-- Modelled from the spec: `action ∈ {Add, Delete, Modify}` (§3 Operation);
the `Action` enum is referenced by `patch.rs` but missing from the
`manifest.rs` revision under `src/`. -/
inductive Action where
  | add
  | delete
  | modify
  deriving Repr, DecidableEq

/-- Modelled from the spec: an operation is `(action, path, optional size,
optional storage)` (§3); the `Operation` struct is referenced by `patch.rs`
(literals at src/src/patch.rs:1234, 1264, 1286) but missing from the
`manifest.rs` revision under `src/`. -/
structure Operation where
  action : Action
  path : String
  size : Option Nat
  storage : Option String
  deriving Repr, DecidableEq

/-- Modelled from the spec: the manifest attached to each patch image
(§3 Manifest); the revision of `PatchManifest` used by `patch.rs` (with
`base_image_guid`, `target_image_guid` and a single ordered operation list)
is missing from the `manifest.rs` under `src/`. -/
structure Manifest where
  id : String
  name : String
  patch_version : String
  timestamp : String
  tool_version : String
  author : String
  description : String
  base_image_guid : String
  base_image_info : ImageInfo
  target_image_guid : String
  target_image_info : ImageInfo
  operations : List Operation
  deriving Repr, DecidableEq

/-! ## Builder: the Modify branch of `create_operations`
(src/src/patch.rs:1272-1331) -/

/-- Embedded from the `DiffType::Modify` arm of `create_operations`
(src/src/patch.rs:1272-1331): record a Modify operation
(size = target bytes, storage name), then write the artifact into the
working directory `work`:
Full copies the file at `old_path` (the base mount) to `working/<path>`;
Zstd writes `working/<path>.diff` via `ZstdDiff::file_diff(old, new, …)`;
Bsdiff writes `working/<path>.diff` via `BsDiff::file_diff(old, new, …)`.
`oldBytes`/`newBytes` are the contents of the base and target mounts at
`path`.  Returns the recorded operation and the updated working tree. -/
def create_operations_modify (z : ZstdLib) (l : BsdiffLib) (storage : Storage)
    (preset : Preset) (work : Fs) (path : String) (oldBytes newBytes : List Nat) :
    Operation × Fs :=
  let op : Operation :=
    { action := Action.modify, path := path
      size := some newBytes.length, storage := some storage.name }
  match storage with
  | Storage.full => (op, work.write path oldBytes)
  | Storage.zstd =>
      (op, work.write (path ++ ".diff") (z.compress oldBytes preset.level newBytes))
  | Storage.bsdiff =>
      (op, work.write (path ++ ".diff") (l.diff oldBytes newBytes))

/-! ## Applier: `apply_operations` (src/src/patch.rs:1343-1622)

The two mounts appear as separate filesystems keyed by image-relative path,
so `patch_mount.join(p)` is just `p` inside `patchFs`.  Progress-bar and
console rendering are dropped; warnings in force mode show up as the `ok`
branch with an unchanged filesystem. -/

/-- Embedded from the delta-artifact lookup in the zstd and bsdiff branches of
`apply_operations` (src/src/patch.rs:1523 and 1569):
`patch_mount.join(format!("{}.diff ", &operation.path))` — note the trailing
space inside the format string, reproduced here verbatim. -/
def applyDiffArtifactName (path : String) : String :=
  path ++ ".diff "

/-- The artifact name the builder writes for delta storages
(src/src/patch.rs:1310 and 1324): `format!("{}.diff", path)`. -/
def buildDiffArtifactName (path : String) : String :=
  path ++ ".diff"

/-- Embedded from the `Action::Modify` arm of `apply_operations`
(src/src/patch.rs:1484-1617).  `baseFs` is the read-write base mount,
`patchFs` the read-only patch mount.  Absent storage skips the whole
`if let Some(storage)` block; an unrecognized storage string falls into the
`_ => {}` arm.  In force mode every failure is logged and skipped
(filesystem unchanged), otherwise it is an error. -/
def apply_operations_modify (z : ZstdLib) (l : BsdiffLib) (baseFs patchFs : Fs)
    (op : Operation) (force : Bool) : Except String Fs :=
  match op.storage with
  | none => Except.ok baseFs
  | some st =>
    match lowerStr st with
    | "full" =>
      -- fs::copy(patch_mount/<path>, base_mount/<path>)
      match patchFs.read op.path with
      | some d => Except.ok (baseFs.write op.path d)
      | none =>
        if force then Except.ok baseFs
        else Except.error ("Copy file Failed: " ++ op.path)
    | "zstd" =>
      -- ZstdDiff::file_patch(base_mount/<path>, patch_mount/<path>.diff␠, base_mount/<path>)
      match patchFs.read (applyDiffArtifactName op.path) with
      | some pd =>
        match baseFs.read op.path with
        | some oldC => Except.ok (baseFs.write op.path (z.decompress oldC pd))
        | none =>
          if force then Except.ok baseFs
          else Except.error ("apply_patch.diff_failed: " ++ op.path)
      | none =>
        if force then Except.ok baseFs
        else Except.error ("Patch file zstdiff patch file not exist: " ++ op.path)
    | "bsdiff" =>
      -- BsDiff::file_patch(base_mount/<path>, patch_mount/<path>.diff␠, base_mount/<path>)
      match patchFs.read (applyDiffArtifactName op.path) with
      | some pd =>
        match baseFs.read op.path with
        | some oldC => Except.ok (baseFs.write op.path (l.patch oldC pd))
        | none =>
          if force then Except.ok baseFs
          else Except.error ("apply_patch.bsdiff_failed: " ++ op.path)
      | none =>
        if force then Except.ok baseFs
        else Except.error ("Patch file bsdiff patch file not exist: " ++ op.path)
    | _ => Except.ok baseFs

/-- Embedded from the `Action::Add` arm of `apply_operations`
(src/src/patch.rs:1383-1437): a directory source creates the directory and
continues; a file source is copied over (missing source: fatal unless
force). -/
def apply_operations_add (baseFs patchFs : Fs) (op : Operation) (force : Bool) :
    Except String Fs :=
  if patchFs.isDir op.path then Except.ok (baseFs.mkdir op.path)
  else if patchFs.pathExists op.path then
    match patchFs.read op.path with
    | some d => Except.ok (baseFs.write op.path d)
    | none =>
      if force then Except.ok baseFs
      else Except.error ("Copy file Failed: " ++ op.path)
  else
    if force then Except.ok baseFs
    else Except.error ("Patch file source file not exist: " ++ op.path)

/-- Embedded from the `Action::Delete` arm of `apply_operations`
(src/src/patch.rs:1439-1482): remove the path if present (directory or
file); a missing path is silently fine. -/
def apply_operations_delete (baseFs : Fs) (op : Operation) : Except String Fs :=
  if baseFs.pathExists op.path then Except.ok (baseFs.remove op.path)
  else Except.ok baseFs

/-- Embedded from the exclude check at the top of the operation loop
(src/src/patch.rs:1362-1379): any user-supplied substring, compared
case-insensitively, anywhere in the relative path. -/
def excludeMatch (exclude : Option (List String)) (path : String) : Bool :=
  match exclude with
  | none => false
  | some ex =>
    ex.any (fun item => containsSub (lowerStr path).data (lowerStr item).data)

/-- Embedded from the loop of `apply_operations` (src/src/patch.rs:1360-1621):
excluded operations are skipped; each remaining operation is dispatched on
its action; the first error aborts, otherwise the updated base mount flows
into the next operation. -/
def apply_operations (z : ZstdLib) (l : BsdiffLib) (baseFs patchFs : Fs)
    (operations : List Operation) (exclude : Option (List String)) (force : Bool) :
    Except String Fs :=
  match operations with
  | [] => Except.ok baseFs
  | op :: rest =>
    if excludeMatch exclude op.path then
      apply_operations z l baseFs patchFs rest exclude force
    else
      match (match op.action with
             | Action.add => apply_operations_add baseFs patchFs op force
             | Action.delete => apply_operations_delete baseFs op
             | Action.modify => apply_operations_modify z l baseFs patchFs op force) with
      | Except.error e => Except.error e
      | Except.ok baseFs' => apply_operations z l baseFs' patchFs rest exclude force

/-- A storage value the Modify dispatch recognises in none of its arms
(src/src/patch.rs:1497-1613): absent, or lowercasing to something other
than "full", "zstd", "bsdiff". -/
def storageUnknown : Option String → Prop
  | none => True
  | some st => lowerStr st ≠ "full" ∧ lowerStr st ≠ "zstd" ∧ lowerStr st ≠ "bsdiff"

/-! ## Chain resolution: `match_patch` (src/src/patch.rs:1636-1714)

The version type and its comparison live in the external `semver` crate;
they are modelled by a record `SemverLib` with a parse function, a total
comparison, and the fallback value `Version::new(0,0,0)` used for malformed
strings. `Vec::sort_by` is a stable sort; it is modelled by insertion sort
from the right (`stableSort`), which preserves the relative order of
elements the comparator does not strictly order. -/

/-- Model of the external semver crate over an abstract version type `K`. -/
structure SemverLib (K : Type) where
  parse : String → Option K
  cmp : K → K → Ordering
  v000 : K

/-- Embedded from the sort key of `match_patch` (src/src/patch.rs:1676-1677):
`Version::parse(s).unwrap_or_else(|_| Version::new(0, 0, 0))`. -/
def SemverLib.key {K : Type} (sv : SemverLib K) (s : String) : K :=
  (sv.parse s).getD sv.v000

/-- Insert `a` before the first element `b` with `le a b`; together with
`stableSort` this is a stable insertion sort. -/
def insertLe {α : Type} (le : α → α → Bool) (a : α) : List α → List α
  | [] => [a]
  | b :: l => if le a b then a :: b :: l else b :: insertLe le a l

/-- Stable sort by a boolean `≤` (model of `Vec::sort_by`). -/
def stableSort {α : Type} (le : α → α → Bool) (l : List α) : List α :=
  l.foldr (insertLe le) []

/-- The `≤` induced by the comparator of `match_patch`
(src/src/patch.rs:1674-1679): compare the parsed versions. -/
def vle {K : Type} (sv : SemverLib K) (a b : Nat × Manifest) : Bool :=
  !(sv.cmp (sv.key a.2.patch_version) (sv.key b.2.patch_version)) == Ordering.gt

/-- State threaded through chain construction: the globally consumed patch
indices (`all_applied_indices`), emitted warnings, the current image
descriptor, and the chain built so far. -/
structure MatchAcc where
  consumed : List Nat
  warnings : List String
  current : ImageInfo
  chain : List (Nat × Manifest)
  deriving Repr, DecidableEq

/-- Embedded from the candidate filter of `match_patch`
(src/src/patch.rs:1657-1666): unconsumed patches whose base image index and
base WIM GUID match the current descriptor. -/
def candidatesOf (guid : String) (patchList : List (Nat × Manifest))
    (consumed : List Nat) (current : ImageInfo) : List (Nat × Manifest) :=
  patchList.filter (fun ip =>
    current.index == ip.2.base_image_info.index
      && guid == ip.2.base_image_guid
      && !(consumed.contains ip.1))

/-- Error raised on a chain-base mismatch without force
(src/src/patch.rs:1687-1690). -/
def baseNotMatchMsg (idx : Nat) : String :=
  "apply_patch.base_not_match: " ++ toString idx

/-- Warning emitted on a chain-base mismatch with force
(src/src/patch.rs:1692-1698). -/
def baseStatNotMatchMsg (idx : Nat) : String :=
  "apply_patch.base_stat_not_match: " ++ toString idx

/-- Embedded from one pass of the `loop` in `match_patch`
(src/src/patch.rs:1655-1705): filter candidates, break when empty, sort by
parsed version (stable), take the first, run the content check (mismatch:
error unless force, warning with force), consume the patch, append it to the
chain and move the descriptor to the patch's target. -/
def matchIteration {K : Type} (sv : SemverLib K) (guid : String)
    (patchList : List (Nat × Manifest)) (force : Bool) (st : MatchAcc) :
    Option (Except String MatchAcc) :=
  let candidates := candidatesOf guid patchList st.consumed st.current
  match stableSort (vle sv) candidates with
  | [] => none
  | sel :: _ =>
    if st.current.beq sel.2.base_image_info then
      some (Except.ok
        { consumed := sel.1 :: st.consumed, warnings := st.warnings
          current := sel.2.target_image_info, chain := st.chain ++ [sel] })
    else if force then
      some (Except.ok
        { consumed := sel.1 :: st.consumed
          warnings := st.warnings ++ [baseStatNotMatchMsg st.current.index]
          current := sel.2.target_image_info, chain := st.chain ++ [sel] })
    else
      some (Except.error (baseNotMatchMsg st.current.index))

/-- The chain loop, fuelled.  Every pass consumes a patch index that is not
yet in `consumed`, so with fuel `patchList.length + 1` the cutoff is never
the reason the loop stops and the function agrees with the unbounded Rust
`loop`. -/
def matchChainLoop {K : Type} (sv : SemverLib K) (guid : String)
    (patchList : List (Nat × Manifest)) (force : Bool) :
    Nat → MatchAcc → Except String MatchAcc
  | 0, st => Except.ok st
  | Nat.succ fuel, st =>
    match matchIteration sv guid patchList force st with
    | none => Except.ok st
    | some (Except.error e) => Except.error e
    | some (Except.ok st') => matchChainLoop sv guid patchList force fuel st'

/-- Embedded from the outer `for` of `match_patch`
(src/src/patch.rs:1650-1711): one chain per base image, consumed indices and
warnings carried across; a chain is reported only when non-empty. -/
def matchPatchGo {K : Type} (sv : SemverLib K) (guid : String)
    (patchList : List (Nat × Manifest)) (force : Bool) :
    List ImageInfo → List Nat → List String →
    List (ImageInfo × List (Nat × Manifest)) →
    Except String (List String × List (ImageInfo × List (Nat × Manifest)))
  | [], _, warnings, result => Except.ok (warnings, result)
  | info :: rest, consumed, warnings, result =>
    match matchChainLoop sv guid patchList force (patchList.length + 1)
        { consumed := consumed, warnings := warnings, current := info, chain := [] } with
    | Except.error e => Except.error e
    | Except.ok st =>
      matchPatchGo sv guid patchList force rest st.consumed st.warnings
        (if st.chain.isEmpty then result else result ++ [(st.current, st.chain)])

/-- Embedded from `WimPatch::match_patch` (src/src/patch.rs:1636-1714). -/
def match_patch {K : Type} (sv : SemverLib K) (base_guid : String)
    (baseInfos : List ImageInfo) (patchList : List (Nat × Manifest)) (force : Bool) :
    Except String (List String × List (ImageInfo × List (Nat × Manifest))) :=
  matchPatchGo sv base_guid patchList force baseInfos [] [] []

/-! ### The claim-side resolver (for the refinement claim C4)

`matchPatchSpec` transcribes the claim: among matching unconsumed patches,
select the one with the smallest parsed version, ties broken by ascending
patch-image index; everything else is identical. -/

/-- `a` is strictly preferred to `b` by the claim's order: smaller parsed
version, or equal versions and a smaller patch-image index. -/
def lexBetter {K : Type} (sv : SemverLib K) (a b : Nat × Manifest) : Bool :=
  match sv.cmp (sv.key a.2.patch_version) (sv.key b.2.patch_version) with
  | Ordering.lt => true
  | Ordering.eq => decide (a.1 < b.1)
  | Ordering.gt => false

/-- The strict order induced by the comparator of `match_patch`. -/
def vlt {K : Type} (sv : SemverLib K) (a b : Nat × Manifest) : Bool :=
  (sv.cmp (sv.key a.2.patch_version) (sv.key b.2.patch_version)) == Ordering.lt

/-- The earliest element no later element strictly beats (the head a stable
sort produces); proof-side characterisation of `stableSort`. -/
def firstMinBy {α : Type} (lt : α → α → Bool) : List α → Option α
  | [] => none
  | a :: l =>
    some (match firstMinBy lt l with
          | none => a
          | some m => if lt m a then m else a)

/-- The claim's selection: the candidate minimal for `lexBetter`; when
several are equivalent the earliest is kept (indices are distinct in every
run, so this does not matter). -/
def specSelect {K : Type} (sv : SemverLib K) :
    List (Nat × Manifest) → Option (Nat × Manifest)
  | [] => none
  | c :: cs =>
    some (match specSelect sv cs with
          | none => c
          | some m => if lexBetter sv m c then m else c)

/-- One pass of the claim's resolver: as `matchIteration`, but selecting by
explicit version-then-index minimisation. -/
def specIteration {K : Type} (sv : SemverLib K) (guid : String)
    (patchList : List (Nat × Manifest)) (force : Bool) (st : MatchAcc) :
    Option (Except String MatchAcc) :=
  let candidates := candidatesOf guid patchList st.consumed st.current
  match specSelect sv candidates with
  | none => none
  | some sel =>
    if st.current.beq sel.2.base_image_info then
      some (Except.ok
        { consumed := sel.1 :: st.consumed, warnings := st.warnings
          current := sel.2.target_image_info, chain := st.chain ++ [sel] })
    else if force then
      some (Except.ok
        { consumed := sel.1 :: st.consumed
          warnings := st.warnings ++ [baseStatNotMatchMsg st.current.index]
          current := sel.2.target_image_info, chain := st.chain ++ [sel] })
    else
      some (Except.error (baseNotMatchMsg st.current.index))

/-- The claim's chain loop. -/
def specChainLoop {K : Type} (sv : SemverLib K) (guid : String)
    (patchList : List (Nat × Manifest)) (force : Bool) :
    Nat → MatchAcc → Except String MatchAcc
  | 0, st => Except.ok st
  | Nat.succ fuel, st =>
    match specIteration sv guid patchList force st with
    | none => Except.ok st
    | some (Except.error e) => Except.error e
    | some (Except.ok st') => specChainLoop sv guid patchList force fuel st'

/-- The claim's outer loop. -/
def specPatchGo {K : Type} (sv : SemverLib K) (guid : String)
    (patchList : List (Nat × Manifest)) (force : Bool) :
    List ImageInfo → List Nat → List String →
    List (ImageInfo × List (Nat × Manifest)) →
    Except String (List String × List (ImageInfo × List (Nat × Manifest)))
  | [], _, warnings, result => Except.ok (warnings, result)
  | info :: rest, consumed, warnings, result =>
    match specChainLoop sv guid patchList force (patchList.length + 1)
        { consumed := consumed, warnings := warnings, current := info, chain := [] } with
    | Except.error e => Except.error e
    | Except.ok st =>
      specPatchGo sv guid patchList force rest st.consumed st.warnings
        (if st.chain.isEmpty then result else result ++ [(st.current, st.chain)])

/-- The resolver exactly as the claim words it. -/
def matchPatchSpec {K : Type} (sv : SemverLib K) (base_guid : String)
    (baseInfos : List ImageInfo) (patchList : List (Nat × Manifest)) (force : Bool) :
    Except String (List String × List (ImageInfo × List (Nat × Manifest))) :=
  specPatchGo sv base_guid patchList force baseInfos [] [] []

/-! ## `apply_patch` at the effect level (src/src/patch.rs:776-951)

Only mutating effects are traced (the copy of the base WIM into the temp
directory and the per-image application); the reads that precede matching
are pure inputs here.  The trace/outcome pair keeps effects that happened
before a later error. -/

/-- A degenerate semver instance for concrete evaluation: parsing always
fails (everything is malformed, hence `0.0.0`) and all versions compare
equal; its comparison trivially satisfies the swap law. -/
def trivSemver : SemverLib (Fin 1) :=
  { parse := fun _ => none, cmp := fun _ _ => Ordering.eq, v000 := 0 }

/-- The post-apply descriptor used in concrete matching scenarios. -/
def sampleTarget : ImageInfo :=
  { sampleInfoA with index := 2, file_count := 101 }

/-- A concrete manifest whose base descriptor has the base image's index but
a different name (so the derived descriptor equality rejects it). -/
def sampleManifest : Manifest :=
  { id := "id0", name := "p1", patch_version := "1.0.0", timestamp := "t"
    tool_version := "0.1", author := "a", description := "d"
    base_image_guid := "G", base_image_info := sampleInfoB
    target_image_guid := "G", target_image_info := sampleTarget
    operations := [] }

/-- A mutating effect of `apply_patch`. -/
inductive Effect where
  | copyBaseWim
  | applyImage (baseIndex : Nat) (patchIndices : List Nat)
  deriving Repr, DecidableEq

/-- Embedded from `WimPatch::apply_patch` (src/src/patch.rs:776-951):
match first (src/src/patch.rs:848-856); only then copy the base WIM into the
temp directory (src/src/patch.rs:859) and apply each matched chain
(directly, or filtered by the user-supplied base index after checking it
exists).  Returns the mutation trace together with the outcome. -/
def apply_patch {K : Type} (sv : SemverLib K) (base_guid : String)
    (baseInfos : List ImageInfo) (patchList : List (Nat × Manifest))
    (baseIndex : Option Nat) (force : Bool) :
    List Effect × Except String Unit :=
  match match_patch sv base_guid baseInfos patchList force with
  | Except.error e => ([], Except.error e)
  | Except.ok (_, matchInfo) =>
    if matchInfo.isEmpty then ([], Except.error "apply_patch.not_match")
    else
      match baseIndex with
      | some bi =>
        if !(baseInfos.any (fun i => i.index == bi)) then
          ([Effect.copyBaseWim], Except.error "apply_patch.base_index_not_found")
        else
          (Effect.copyBaseWim ::
            ((matchInfo.filter (fun m => bi == m.1.index)).map
              (fun m => Effect.applyImage bi (m.2.map (fun p => p.1)))),
           Except.ok ())
      | none =>
        (Effect.copyBaseWim ::
          (matchInfo.map (fun m => Effect.applyImage m.1.index (m.2.map (fun p => p.1)))),
         Except.ok ())

/-! ## DirDiff file equality (src/src/utils.rs:177-224)

A file is its content bytes plus its modification-time nanosecond stamp;
`metadata.len()` is the byte length.  `is_same_file` returns, besides the
verdict, how many rounds of the byte-compare loop executed (0 when the
metadata fast-path rejected), which makes "without reading contents" and
"stops at the first differing byte" statable. -/

/-- A regular file as seen by `is_same_file`. -/
structure MFile where
  mtimeNanos : Nat
  bytes : List Nat
  deriving Repr, DecidableEq

/-- Embedded from `get_file_metadata` (src/src/utils.rs:177-186): file size
and modification time as a nanosecond stamp.  Metadata queries on existing
regular files succeed in this model. -/
def get_file_metadata (f : MFile) : Option (Nat × Nat) :=
  some (f.bytes.length, f.mtimeNanos)

/-- Embedded from the `while` loop of `is_same_file`
(src/src/utils.rs:211-221): read up to `bs` bytes from each stream; unequal
read lengths fail, paired end-of-files succeed, a differing chunk fails,
otherwise continue.  The second component counts executed rounds. -/
def cmpLoop (bs : Nat) (b0 b1 : List Nat) : Bool × Nat :=
  if _h1 : (b0.take bs).length = (b1.take bs).length then
    if _h2 : (b0.take bs).length = 0 then (true, 1)
    else if b0.take bs ≠ b1.take bs then (false, 1)
    else
      let r := cmpLoop bs (b0.drop bs) (b1.drop bs)
      (r.1, r.2 + 1)
  else (false, 1)
termination_by b0.length
decreasing_by
  simp only [List.length_take] at _h2
  have hbs : 0 < bs := by
    rcases Nat.eq_zero_or_pos bs with h | h
    · exact absurd (by simp [h]) _h2
    · exact h
  have hb0 : 0 < b0.length := by
    rcases Nat.eq_zero_or_pos b0.length with h | h
    · exact absurd (by simp [h]) _h2
    · exact h
  simpa [List.length_drop] using Nat.sub_lt hb0 hbs

/-- Embedded from `is_same_file` (src/src/utils.rs:195-224): metadata
fast-reject (size or mtime), then the byte-compare loop.  The counter is 0
exactly when the loop never ran. -/
def is_same_file (bs : Nat) (one another : MFile) : Bool × Nat :=
  match get_file_metadata one, get_file_metadata another with
  | some (size1, mtime1), some (size2, mtime2) =>
    if size1 ≠ size2 ∨ mtime1 ≠ mtime2 then (false, 0)
    else cmpLoop bs one.bytes another.bytes
  | _, _ => cmpLoop bs one.bytes another.bytes

/-- Index of the first position where two byte lists differ (including a
length difference), if any; used to state where the compare loop stops. -/
def firstDiff : List Nat → List Nat → Option Nat
  | [], [] => none
  | [], _ :: _ => some 0
  | _ :: _, [] => some 0
  | a :: l0, b :: l1 => if a ≠ b then some 0 else (firstDiff l0 l1).map (· + 1)

/-! ## XML metadata rewrite (src/src/utils.rs:354-374)

`replace_xml_field` works on byte offsets of a UTF-8 `&str`; the embedding
uses the character-list view (the tags involved are ASCII, so offsets

agree positionally). -/

/-- `pat` occurs in `hay` at position `i`. -/
def occursAt (hay pat : List Char) (i : Nat) : Prop :=
  pat.isPrefixOf (hay.drop i) = true

/-- Embedded from `replace_xml_field` (src/src/utils.rs:354-374): find the
first `<field>`, then the first `</field>` after it, and splice `value`
over the span between them; otherwise return the input unchanged. -/
def replace_xml_field (xml fieldName value : List Char) : List Char :=
  let startTag := '<' :: (fieldName ++ ['>'])
  let endTag := '<' :: '/' :: (fieldName ++ ['>'])
  match findSub xml startTag with
  | none => xml
  | some startPos =>
    match findSub (xml.drop (startPos + startTag.length)) endTag with
    | none => xml
    | some endPos =>
      let totalStart := startPos + startTag.length
      let totalEnd := totalStart + endPos
      xml.take totalStart ++ value ++ xml.drop totalEnd

/-! ## Decimal numerals

Model of the u64 text layer of the serde XML serializer: print in decimal,
parse digit-wise. -/

/-- A decimal digit as a character (codepoint 48 + digit). -/
def digitChar (d : Nat) : Char :=
  Char.ofNat (48 + d)

/-- Back from a character to a decimal digit. -/
def charDigit (c : Char) : Option Nat :=
  if '0' ≤ c ∧ c ≤ '9' then some (c.toNat - 48) else none

/-- Decimal rendering of a natural number (most significant digit first). -/
def natToText (n : Nat) : String :=
  if n = 0 then "0" else String.mk (((Nat.digits 10 n).map digitChar).reverse)

/-- Strict decimal parse. -/
def textToNat (s : String) : Option Nat :=
  (s.data.mapM charDigit).map (fun ds => Nat.ofDigits 10 ds.reverse)

/-! ## The manifest of src/src/manifest.rs and its XML form

These are the structures of the `manifest.rs` revision present under `src/`
(the one defining `to_xml` / `from_xml`, claim C8).  The XML document is
modelled as a tree; the string writer/reader of the quick-xml crate
(tokenising, escaping) is the external library, while everything the serde
derive attributes in `manifest.rs` decide — element and attribute names,
field order, skipped empty/absent fields, grouped operation lists — is
embedded below. -/

/-- Embedded from `struct PathOperation` (src/src/manifest.rs:120-127). -/
structure PathOperation where
  path : String
  size : Nat
  deriving Repr, DecidableEq

/-- Embedded from `struct ModifyOperation` (src/src/manifest.rs:130-140). -/
structure ModifyOperation where
  path : String
  size : Nat
  storage : String
  deriving Repr, DecidableEq

/-- Embedded from `struct Operations` (src/src/manifest.rs:143-157): three
lists, serialized as repeated `Delete` / `Add` / `Modify` elements. -/
structure Operations where
  deletes : List PathOperation
  adds : List PathOperation
  modifies : List ModifyOperation
  deriving Repr, DecidableEq

/-- Embedded from `struct PatchManifest` (src/src/manifest.rs:10-51). -/
structure PatchManifest where
  id : String
  name : String
  patch_version : String
  timestamp : String
  tool_version : String
  author : String
  description : String
  base_image_info : ImageInfo
  target_image_info : ImageInfo
  operations : Operations
  deriving Repr, DecidableEq

/-- An XML document fragment: an element with attributes and children, or a
text node. -/
inductive Xml where
  | elem (tag : String) (attrs : List (String × String)) (children : List Xml)
  | text (s : String)

/-- A string-valued element. -/
def strElem (tag : String) (s : String) : Xml :=
  Xml.elem tag [] [Xml.text s]

/-- A u64-valued element. -/
def natElem (tag : String) (n : Nat) : Xml :=
  Xml.elem tag [] [Xml.text (natToText n)]

/-- An optional element: absent rather than empty when the field is `None`
(`#[serde(skip_serializing_if = "Option::is_none")]`). -/
def optStrElems (tag : String) : Option String → List Xml
  | none => []
  | some s => [strElem tag s]

/-- Serialization of `ImageInfo` under the serde renames of
src/src/manifest.rs:54-100: `INDEX` is an attribute (`@INDEX`), the five
name-like fields are optional elements, the counters mandatory elements,
in field order. -/
def ImageInfo.toXml (tag : String) (i : ImageInfo) : Xml :=
  Xml.elem tag [("INDEX", natToText i.index)]
    (optStrElems "NAME" i.name
      ++ optStrElems "DISPLAYNAME" i.display_name
      ++ optStrElems "DESCRIPTION" i.description
      ++ optStrElems "DISPLAYDESCRIPTION" i.display_description
      ++ optStrElems "FLAGS" i.flags
      ++ [natElem "DIRCOUNT" i.dir_count, natElem "FILECOUNT" i.file_count,
          natElem "HARDLINKBYTES" i.hard_link_bytes,
          natElem "TOTALBYTES" i.total_bytes])

/-- Serialization of a `PathOperation` as a `Delete` or `Add` element. -/
def PathOperation.toXml (tag : String) (p : PathOperation) : Xml :=
  Xml.elem tag [] [strElem "path" p.path, natElem "size" p.size]

/-- Serialization of a `ModifyOperation` as a `Modify` element. -/
def ModifyOperation.toXml (m : ModifyOperation) : Xml :=
  Xml.elem "Modify" []
    [strElem "path" m.path, natElem "size" m.size, strElem "storage" m.storage]

/-- Serialization of `Operations`
(src/src/manifest.rs:143-157): grouped repeated elements, each list in
order; empty lists are skipped, which in the tree view simply contributes
no children. -/
def Operations.toXml (o : Operations) : Xml :=
  Xml.elem "operations" []
    (o.deletes.map (PathOperation.toXml "Delete")
      ++ o.adds.map (PathOperation.toXml "Add")
      ++ o.modifies.map ModifyOperation.toXml)

/-- Embedded from `PatchManifest::to_xml` (src/src/manifest.rs:189-191) with
the serde renames of src/src/manifest.rs:10-51: root `PatchManifest`,
children in declared field order. -/
def PatchManifest.to_xml (m : PatchManifest) : Xml :=
  Xml.elem "PatchManifest" []
    [strElem "ID" m.id, strElem "Name" m.name,
     strElem "PatchVersion" m.patch_version, strElem "Timestamp" m.timestamp,
     strElem "ToolVersion" m.tool_version, strElem "Author" m.author,
     strElem "Description" m.description,
     m.base_image_info.toXml "BaseImageInfo",
     m.target_image_info.toXml "TargetImageInfo",
     m.operations.toXml]

/-- Whether a node is an element with the given tag. -/
def Xml.tagIs (t : String) : Xml → Bool
  | Xml.elem tag _ _ => tag == t
  | Xml.text _ => false

/-- First child element with a given tag (serde map access). -/
def findChild (children : List Xml) (t : String) : Option Xml :=
  children.find? (Xml.tagIs t)

/-- All child elements with a given tag, in order (serde sequence access). -/
def childrenWithTag (children : List Xml) (t : String) : List Xml :=
  children.filter (Xml.tagIs t)

/-- The text content of an element (an empty element reads as ""). -/
def textOf : Xml → Option String
  | Xml.elem _ _ [Xml.text s] => some s
  | Xml.elem _ _ [] => some ""
  | _ => none

/-- A mandatory string field. -/
def strField (children : List Xml) (t : String) : Option String :=
  (findChild children t).bind textOf

/-- A mandatory u64 field. -/
def natField (children : List Xml) (t : String) : Option Nat :=
  (strField children t).bind textToNat

/-- An optional string field: a missing element is `None` (serde treats
`Option` fields as allowed to be missing). -/
def optStrField (children : List Xml) (t : String) : Option (Option String) :=
  match findChild children t with
  | none => some none
  | some x => (textOf x).map some

/-- An attribute value. -/
def attrOf (attrs : List (String × String)) (k : String) : Option String :=
  (attrs.find? (fun a => a.1 == k)).map (fun a => a.2)

/-- Deserialization of `ImageInfo` (the serde derive of
src/src/manifest.rs:54-100 read back). -/
def ImageInfo.fromXml (x : Xml) : Option ImageInfo :=
  match x with
  | Xml.elem _ attrs children => do
    let idxText ← attrOf attrs "INDEX"
    let idx ← textToNat idxText
    let nm ← optStrField children "NAME"
    let dn ← optStrField children "DISPLAYNAME"
    let ds ← optStrField children "DESCRIPTION"
    let dd ← optStrField children "DISPLAYDESCRIPTION"
    let fl ← optStrField children "FLAGS"
    let dc ← natField children "DIRCOUNT"
    let fc ← natField children "FILECOUNT"
    let hb ← natField children "HARDLINKBYTES"
    let tb ← natField children "TOTALBYTES"
    pure { index := idx, name := nm, display_name := dn, description := ds
           display_description := dd, flags := fl, dir_count := dc
           file_count := fc, hard_link_bytes := hb, total_bytes := tb }
  | Xml.text _ => none

/-- Deserialization of a `Delete`/`Add` element. -/
def PathOperation.fromXml (x : Xml) : Option PathOperation :=
  match x with
  | Xml.elem _ _ children => do
    let p ← strField children "path"
    let s ← natField children "size"
    pure { path := p, size := s }
  | Xml.text _ => none

/-- Deserialization of a `Modify` element. -/
def ModifyOperation.fromXml (x : Xml) : Option ModifyOperation :=
  match x with
  | Xml.elem _ _ children => do
    let p ← strField children "path"
    let s ← natField children "size"
    let st ← strField children "storage"
    pure { path := p, size := s, storage := st }
  | Xml.text _ => none

/-- Deserialization of `Operations`: collect the repeated `Delete`, `Add`
and `Modify` children in order (`#[serde(default)]` makes missing lists
empty). -/
def Operations.fromXml (x : Xml) : Option Operations :=
  match x with
  | Xml.elem _ _ children => do
    let ds ← (childrenWithTag children "Delete").mapM PathOperation.fromXml
    let as_ ← (childrenWithTag children "Add").mapM PathOperation.fromXml
    let ms ← (childrenWithTag children "Modify").mapM ModifyOperation.fromXml
    pure { deletes := ds, adds := as_, modifies := ms }
  | Xml.text _ => none

/-- Embedded from `PatchManifest::from_xml` (src/src/manifest.rs:194-196):
the serde derive read back; a non-`PatchManifest` root is rejected. -/
def PatchManifest.from_xml (x : Xml) : Option PatchManifest :=
  match x with
  | Xml.elem tag _ children =>
    if tag = "PatchManifest" then do
      let i ← strField children "ID"
      let nm ← strField children "Name"
      let pv ← strField children "PatchVersion"
      let ts ← strField children "Timestamp"
      let tv ← strField children "ToolVersion"
      let au ← strField children "Author"
      let de ← strField children "Description"
      let bi ← (findChild children "BaseImageInfo").bind ImageInfo.fromXml
      let ti ← (findChild children "TargetImageInfo").bind ImageInfo.fromXml
      let ops ← (findChild children "operations").bind Operations.fromXml
      pure { id := i, name := nm, patch_version := pv, timestamp := ts
             tool_version := tv, author := au, description := de
             base_image_info := bi, target_image_info := ti, operations := ops }
    else none
  | Xml.text _ => none

/-! # Theorems -/

/-! ## Helper lemmas -/

/-- The derived `PartialEq` of `ImageInfo` is structural equality. -/
theorem ImageInfo.beq_eq_true_iff (a b : ImageInfo) : a.beq b = true ↔ a = b := by
  cases a; cases b
  simp [ImageInfo.beq, ImageInfo.mk.injEq, and_assoc]

/-- Reading back the path just written. -/
theorem Fs.read_write_self (fs : Fs) (p : String) (d : List Nat) :
    (fs.write p d).read p = some d := by
  simp [Fs.write, Fs.read, Fs.lookup]

/-- Writing one path leaves the others unchanged. -/
theorem Fs.read_write_ne (fs : Fs) (p q : String) (d : List Nat) (h : q ≠ p) :
    (fs.write p d).read q = fs.read q := by
  have hpq : ¬ p = q := fun h' => h h'.symm
  simp [Fs.write, Fs.read, Fs.lookup, hpq]

/-! ## C6 — descriptor equality used by patch matching -/

/-- C6, counterexample: two descriptors with identical counted fields but
different `name` values; the claimed counted-fields equality holds, yet the
derived equality `match_patch` actually uses (`ImageInfo.beq`) rejects them,
so equality is not decided by the counted fields alone. -/
theorem imageInfo_equality_ignores_names_counterexample :
    ImageInfo.countedEq sampleInfoA sampleInfoB = true ∧
      ImageInfo.beq sampleInfoA sampleInfoB = false := by
  constructor <;> rfl

/-- C6, amended: two `ImageInfo` descriptors compare equal (under the derived
`PartialEq` used at src/src/patch.rs:1685) exactly when all ten fields —
the counted fields and the name, display-name, description,
display-description and flags fields — are pairwise equal. -/
theorem imageInfo_beq_iff_all_fields :
    ∀ a b : ImageInfo,
      a.beq b = true ↔
        (a.index = b.index ∧ a.name = b.name ∧ a.display_name = b.display_name ∧
          a.description = b.description ∧
          a.display_description = b.display_description ∧ a.flags = b.flags ∧
          a.dir_count = b.dir_count ∧ a.file_count = b.file_count ∧
          a.hard_link_bytes = b.hard_link_bytes ∧ a.total_bytes = b.total_bytes) := by
  intro a b
  cases a; cases b
  simp [ImageInfo.beq, and_assoc]

/-! ## C2 — payload stored for Modify + full storage -/

/-- C2: evaluating the embedded Modify/Full branch of `create_operations` at
base bytes `[0]` and target bytes `[1]` shows the working-directory payload
at the operation's path holds the **base** bytes `[0]`, not the target bytes
`[1]` (src/src/patch.rs:1301 copies `old_path`). -/
theorem create_full_payload_is_base_bytes :
    (create_operations_modify storeZstd storeBsdiff Storage.full Preset.medium
        [] "a.txt" [0] [1]).2.read "a.txt" = some [0] ∧
      ([0] : List Nat) ≠ [1] ∧
      (create_operations_modify storeZstd storeBsdiff Storage.full Preset.medium
        [] "a.txt" [0] [1]).1.storage = some "full" := by
  refine ⟨rfl, by decide, rfl⟩

/-! ## C9 — unknown or absent storage on Modify is silently skipped -/

/-- C9: a Modify whose storage is absent or, lowercased, none of
"full"/"zstd"/"bsdiff" performs no filesystem change and raises no error:
`apply_operations` continues exactly as if the operation were not there,
in force and non-force mode alike. -/
theorem modify_unknown_storage_skipped (z : ZstdLib) (l : BsdiffLib)
    (baseFs patchFs : Fs) (op : Operation) (rest : List Operation)
    (exclude : Option (List String)) (force : Bool)
    (ha : op.action = Action.modify) (hs : storageUnknown op.storage) :
    apply_operations z l baseFs patchFs (op :: rest) exclude force =
      apply_operations z l baseFs patchFs rest exclude force := by
  have hmod : apply_operations_modify z l baseFs patchFs op force = Except.ok baseFs := by
    unfold apply_operations_modify
    cases hst : op.storage with
    | none => rfl
    | some st =>
      rw [hst] at hs
      obtain ⟨h1, h2, h3⟩ := hs
      split <;> simp_all
  by_cases hex : excludeMatch exclude op.path
  · simp [apply_operations, hex]
  · simp [apply_operations, hex, ha, hmod]

/-- C9, witness: a concrete Modify with storage "raw7" is skipped. -/
theorem modify_unknown_storage_skipped_witness :
    storageUnknown (some "raw7") ∧
      apply_operations storeZstd storeBsdiff [] []
          [{ action := Action.modify, path := "x", size := none, storage := some "raw7" }]
          none false =
        apply_operations storeZstd storeBsdiff [] [] [] none false := by
  have hs : storageUnknown (some "raw7") := by
    refine ⟨?_, ?_, ?_⟩ <;> decide
  exact ⟨hs, modify_unknown_storage_skipped storeZstd storeBsdiff [] [] _ [] none false rfl hs⟩

/-! ## C3 — the delta-artifact filename used on apply -/

/-- C3: the applier's artifact name is the operation path with `".diff "`
appended — a trailing space (src/src/patch.rs:1523, 1569) — while the
builder writes `".diff"` without it (src/src/patch.rs:1310, 1324); the two
differ, and applying a zstd Modify against a patch mount holding the
builder-named artifact fails with "patch file not exist" even though the
artifact is there under the claimed name. -/
theorem apply_diff_artifact_name_trailing_space :
    applyDiffArtifactName "a.txt" = "a.txt.diff " ∧
      buildDiffArtifactName "a.txt" = "a.txt.diff" ∧
      applyDiffArtifactName "a.txt" ≠ buildDiffArtifactName "a.txt" ∧
      apply_operations_modify storeZstd storeBsdiff
          [("a.txt", Node.file [0])] [("a.txt.diff", Node.file [1])]
          { action := Action.modify, path := "a.txt", size := some 1, storage := some "zstd" }
          false =
        Except.error "Patch file zstdiff patch file not exist: a.txt" := by
  refine ⟨rfl, rfl, by decide, rfl⟩

/-! ## C1 — codec round trip -/

/-- C1: for both delta storages the patch produced by diff reconstructs the
target byte-for-byte, given the external codec crates' contracts
(`ZstdLib.Lossless`, `BsdiffLib.Lossless`): the buffer form
`ZstdDiff::patch ∘ ZstdDiff::diff` at any level 0..=22, the file form
`ZstdDiff::file_patch ∘ ZstdDiff::file_diff`, and
`BsDiff::file_patch ∘ BsDiff::file_diff`. -/
theorem codec_round_trip (z : ZstdLib) (l : BsdiffLib)
    (hz : z.Lossless) (hl : l.Lossless) :
    (∀ base target level, level ≤ 22 →
        ZstdDiff.patch z base (ZstdDiff.diff z base target level) = target) ∧
    (∀ (fs : Fs) (oldP newP patchP outP : String) (level : Nat) (B T : List Nat),
        level ≤ 22 →
        fs.read oldP = some B → fs.read newP = some T → oldP ≠ patchP →
        ∃ fs1 fs2,
          ZstdDiff.file_diff z fs oldP newP patchP level = Except.ok fs1 ∧
            ZstdDiff.file_patch z fs1 oldP patchP outP = Except.ok fs2 ∧
            fs2.read outP = some T) ∧
    (∀ (fs : Fs) (oldP newP patchP outP : String) (B T : List Nat),
        fs.read oldP = some B → fs.read newP = some T → oldP ≠ patchP →
        ∃ fs1 fs2,
          BsDiff.file_diff l fs oldP newP patchP = Except.ok fs1 ∧
            BsDiff.file_patch l fs1 oldP patchP outP = Except.ok fs2 ∧
            fs2.read outP = some T) := by
  refine ⟨?_, ?_, ?_⟩
  · intro base target level _
    simp [ZstdDiff.patch, ZstdDiff.diff, hz base level target]
  · intro fs oldP newP patchP outP level B T _ hB hT hne
    refine ⟨fs.write patchP (z.compress B level T),
            (fs.write patchP (z.compress B level T)).write outP
              (z.decompress B (z.compress B level T)), ?_, ?_, ?_⟩
    · simp [ZstdDiff.file_diff, hB, hT]
    · have h1 : (fs.write patchP (z.compress B level T)).read oldP = some B := by
        rw [Fs.read_write_ne _ _ _ _ hne]; exact hB
      simp [ZstdDiff.file_patch, h1, Fs.read_write_self]
    · simp [Fs.read_write_self, hz B level T]
  · intro fs oldP newP patchP outP B T hB hT hne
    refine ⟨fs.write patchP (l.diff B T),
            (fs.write patchP (l.diff B T)).write outP (l.patch B (l.diff B T)),
            ?_, ?_, ?_⟩
    · simp [BsDiff.file_diff, hB, hT]
    · have h1 : (fs.write patchP (l.diff B T)).read oldP = some B := by
        rw [Fs.read_write_ne _ _ _ _ hne]; exact hB
      simp [BsDiff.file_patch, h1, Fs.read_write_self]
    · simp [Fs.read_write_self, hl B T]

/-- C1, witness: the round trip evaluated at concrete bytes through the
verbatim-storing codec instances, which satisfy the contracts. -/
theorem codec_round_trip_witness :
    ZstdDiff.patch storeZstd [9] (ZstdDiff.diff storeZstd [9] [1, 2] 9) = [1, 2] :=
  (codec_round_trip storeZstd storeBsdiff (fun _ _ _ => rfl) (fun _ _ => rfl)).1
    [9] [1, 2] 9 (by decide)

/-! ## C7 — two-stage file equality helpers -/

/-- `firstDiff` on two conses with equal heads defers to the tails. -/
theorem firstDiff_cons_eq {x y : Nat} (hxy : x = y) (l0 l1 : List Nat) :
    firstDiff (x :: l0) (y :: l1) = (firstDiff l0 l1).map (· + 1) := by
  simp [firstDiff, hxy]

/-- `firstDiff` on two conses with different heads is position 0. -/
theorem firstDiff_cons_ne {x y : Nat} (hxy : x ≠ y) (l0 l1 : List Nat) :
    firstDiff (x :: l0) (y :: l1) = some 0 := by
  simp [firstDiff, hxy]

/-- Up to the first difference the two lists agree. -/
theorem firstDiff_take {a b : List Nat} {k : Nat} (h : firstDiff a b = some k) :
    a.take k = b.take k := by
  induction a generalizing b k with
  | nil =>
    cases b with
    | nil => simp [firstDiff] at h
    | cons y l1 =>
      simp only [firstDiff, Option.some.injEq] at h
      subst h; rfl
  | cons x l0 ih =>
    cases b with
    | nil =>
      simp only [firstDiff, Option.some.injEq] at h
      subst h; rfl
    | cons y l1 =>
      by_cases hxy : x = y
      · rw [firstDiff_cons_eq hxy] at h
        cases hfd : firstDiff l0 l1 with
        | none => rw [hfd] at h; simp at h
        | some k' =>
          rw [hfd] at h
          simp only [Option.map_some', Option.some.injEq] at h
          subst h
          simp [List.take_succ_cons, hxy, ih hfd]
      · rw [firstDiff_cons_ne hxy] at h
        injection h with h
        subst h; rfl

/-- For equal-length lists, the first difference is a genuine element
mismatch. -/
theorem firstDiff_get {a b : List Nat} {k : Nat} (hlen : a.length = b.length)
    (h : firstDiff a b = some k) :
    ∃ x y, a[k]? = some x ∧ b[k]? = some y ∧ x ≠ y := by
  induction a generalizing b k with
  | nil =>
    cases b with
    | nil => simp [firstDiff] at h
    | cons y l1 => simp at hlen
  | cons x l0 ih =>
    cases b with
    | nil => simp at hlen
    | cons y l1 =>
      by_cases hxy : x = y
      · rw [firstDiff_cons_eq hxy] at h
        cases hfd : firstDiff l0 l1 with
        | none => rw [hfd] at h; simp at h
        | some k' =>
          rw [hfd] at h
          simp only [Option.map_some', Option.some.injEq] at h
          subst h
          obtain ⟨u, v, hu, hv, huv⟩ := ih (by simpa using hlen) hfd
          exact ⟨u, v, by simpa using hu, by simpa using hv, huv⟩
      · rw [firstDiff_cons_ne hxy] at h
        injection h with h
        subst h
        exact ⟨x, y, by simp, by simp, hxy⟩

/-- Dropping a shared prefix shifts the first difference. -/
theorem firstDiff_drop (n : Nat) {a b : List Nat} {k : Nat}
    (h : firstDiff a b = some k) (hn : n ≤ k) :
    firstDiff (a.drop n) (b.drop n) = some (k - n) := by
  induction n generalizing a b k with
  | zero => simpa using h
  | succ n ih =>
    cases a with
    | nil =>
      cases b with
      | nil => simp [firstDiff] at h
      | cons y l1 =>
        simp only [firstDiff, Option.some.injEq] at h
        omega
    | cons x l0 =>
      cases b with
      | nil =>
        simp only [firstDiff, Option.some.injEq] at h
        omega
      | cons y l1 =>
        by_cases hxy : x = y
        · rw [firstDiff_cons_eq hxy] at h
          cases hfd : firstDiff l0 l1 with
          | none => rw [hfd] at h; simp at h
          | some k' =>
            rw [hfd] at h
            simp only [Option.map_some', Option.some.injEq] at h
            subst h
            simpa [Nat.succ_sub_succ] using ih hfd (by omega)
        · rw [firstDiff_cons_ne hxy] at h
          injection h with h
          omega

/-- A zero-length read means the stream is exhausted (when the buffer is
nonempty). -/
theorem take_length_zero {bs : Nat} {a : List Nat} (hbs : 0 < bs)
    (h : (a.take bs).length = 0) : a = [] := by
  rw [List.length_take] at h
  have : a.length = 0 := by omega
  exact List.length_eq_zero.mp this

/-- The loop verdict is byte equality. -/
theorem cmpLoop_verdict (bs : Nat) (hbs : 0 < bs) :
    ∀ a b : List Nat, ((cmpLoop bs a b).1 = true ↔ a = b) := by
  intro a b
  induction a, b using cmpLoop.induct bs with
  | case1 a b h1 h2 =>
    have ha : a = [] := take_length_zero hbs h2
    have hb : b = [] := take_length_zero hbs (by rw [← h1]; exact h2)
    subst ha; subst hb
    simp [cmpLoop]
  | case2 a b h1 h2 h3 =>
    rw [cmpLoop]
    simp only [dif_pos h1, dif_neg h2, if_pos h3]
    constructor
    · intro hr; simp at hr
    · intro hab; exact absurd (by rw [hab]) h3
  | case3 a b h1 h2 h3 ih =>
    rw [cmpLoop]
    simp only [dif_pos h1, dif_neg h2, if_neg h3]
    have htake : a.take bs = b.take bs := not_ne_iff.mp h3
    constructor
    · intro hr
      have hdrop : a.drop bs = b.drop bs := ih.mp hr
      calc a = a.take bs ++ a.drop bs := (List.take_append_drop bs a).symm
        _ = b.take bs ++ b.drop bs := by rw [htake, hdrop]
        _ = b := List.take_append_drop bs b
    · intro hab
      exact ih.mpr (by rw [hab])
  | case4 a b h1 =>
    rw [cmpLoop]
    simp only [dif_neg h1]
    constructor
    · intro hr; simp at hr
    · intro hab; exact absurd (by rw [hab]) h1

/-- The loop stops with the round containing the first differing byte:
round `k / bs + 1`. -/
theorem cmpLoop_rounds (bs : Nat) (hbs : 0 < bs) :
    ∀ a b : List Nat, a.length = b.length →
      ∀ k, firstDiff a b = some k → (cmpLoop bs a b).2 = k / bs + 1 := by
  intro a b
  induction a, b using cmpLoop.induct bs with
  | case1 a b h1 h2 =>
    intro hlen k hk
    have ha : a = [] := take_length_zero hbs h2
    have hb : b = [] := take_length_zero hbs (by rw [← h1]; exact h2)
    subst ha; subst hb
    simp [firstDiff] at hk
  | case2 a b h1 h2 h3 =>
    intro hlen k hk
    rw [cmpLoop]
    simp only [dif_pos h1, dif_neg h2, if_pos h3]
    have hklt : k < bs := by
      by_contra hge
      have : a.take bs = b.take bs := by
        have h := firstDiff_take hk
        have : a.take bs = (a.take k).take bs := by
          rw [List.take_take, Nat.min_eq_left (by omega)]
        rw [this, h, List.take_take, Nat.min_eq_left (by omega)]
      exact h3 this
    simp [Nat.div_eq_of_lt hklt]
  | case3 a b h1 h2 h3 ih =>
    intro hlen k hk
    rw [cmpLoop]
    simp only [dif_pos h1, dif_neg h2, if_neg h3]
    have htake : a.take bs = b.take bs := not_ne_iff.mp h3
    have hkge : bs ≤ k := by
      by_contra hlt
      obtain ⟨x, y, hx, hy, hxy⟩ := firstDiff_get hlen hk
      have hxk : (a.take bs)[k]? = some x := by
        rw [List.getElem?_take_of_lt (by omega)]; exact hx
      have hyk : (b.take bs)[k]? = some y := by
        rw [List.getElem?_take_of_lt (by omega)]; exact hy
      rw [htake, hyk] at hxk
      injection hxk with hv
      exact hxy hv.symm
    have hlen' : (a.drop bs).length = (b.drop bs).length := by
      simp [List.length_drop, hlen]
    have hfd : firstDiff (a.drop bs) (b.drop bs) = some (k - bs) :=
      firstDiff_drop bs hk hkge
    have := ih hlen' (k - bs) hfd
    simp only [this]
    rw [Nat.div_eq_sub_div hbs hkge]
  | case4 a b h1 =>
    intro hlen k hk
    exact absurd (by simp [List.length_take, hlen]) h1

/-- C7: the two-stage equality of `is_same_file`: a size or mtime mismatch
reports unequal with zero byte-compare rounds (no content read); when the
metadata matches, the verdict is exactly byte equality of the contents
(equal iff both streams end together), and when the contents differ the
loop stops with the round that contains the first differing byte. -/
theorem is_same_file_two_stage (bs : Nat) (f g : MFile) (hbs : 0 < bs) :
    ((f.bytes.length ≠ g.bytes.length ∨ f.mtimeNanos ≠ g.mtimeNanos) →
        is_same_file bs f g = (false, 0)) ∧
      (f.bytes.length = g.bytes.length → f.mtimeNanos = g.mtimeNanos →
        (is_same_file bs f g = cmpLoop bs f.bytes g.bytes ∧
          ((is_same_file bs f g).1 = true ↔ f.bytes = g.bytes) ∧
          (∀ k, firstDiff f.bytes g.bytes = some k →
            (is_same_file bs f g).2 = k / bs + 1))) := by
  constructor
  · intro h
    simp only [is_same_file, get_file_metadata]
    rw [if_pos h]
  · intro hsz hmt
    have heq : is_same_file bs f g = cmpLoop bs f.bytes g.bytes := by
      simp only [is_same_file, get_file_metadata]
      rw [if_neg (by simp [hsz, hmt])]
    refine ⟨heq, ?_, ?_⟩
    · rw [heq]; exact cmpLoop_verdict bs hbs f.bytes g.bytes
    · intro k hk
      rw [heq]
      exact cmpLoop_rounds bs hbs f.bytes g.bytes hsz k hk

/-- C7, witness: a metadata mismatch short-circuits with zero rounds, and a
first-byte difference under matching metadata stops in round 1. -/
theorem is_same_file_two_stage_witness :
    is_same_file 2 { mtimeNanos := 5, bytes := [1, 2, 3] }
        { mtimeNanos := 6, bytes := [1, 2, 3] } = (false, 0) ∧
      (is_same_file 2 { mtimeNanos := 5, bytes := [1, 2, 3] }
        { mtimeNanos := 5, bytes := [9, 2, 3] }).2 = 0 / 2 + 1 := by
  constructor
  · exact (is_same_file_two_stage 2 { mtimeNanos := 5, bytes := [1, 2, 3] }
      { mtimeNanos := 6, bytes := [1, 2, 3] } (by decide)).1 (Or.inr (by decide))
  · exact ((is_same_file_two_stage 2 { mtimeNanos := 5, bytes := [1, 2, 3] }
      { mtimeNanos := 5, bytes := [9, 2, 3] } (by decide)).2 rfl rfl).2.2 0 (by decide)

/-! ## C10 — `replace_xml_field` helpers -/

/-- Unfolding `findSub` on the empty haystack. -/
theorem findSub_nil (pat : List Char) :
    findSub [] pat = if pat = [] then some 0 else none := rfl

/-- Unfolding `findSub` on a cons. -/
theorem findSub_cons (c : Char) (t pat : List Char) :
    findSub (c :: t) pat =
      if pat.isPrefixOf (c :: t) then some 0 else (findSub t pat).map (· + 1) := rfl

/-- `findSub` finds a real occurrence, and the first one. -/
theorem findSub_some {hay pat : List Char} {i : Nat} (h : findSub hay pat = some i) :
    occursAt hay pat i ∧ ∀ j, j < i → ¬occursAt hay pat j := by
  induction hay generalizing i with
  | nil =>
    by_cases hp : pat = ([] : List Char)
    · subst hp
      rw [findSub_nil, if_pos rfl] at h
      injection h with h
      subst h
      exact ⟨by simp [occursAt, List.isPrefixOf], by omega⟩
    · rw [findSub_nil, if_neg hp] at h
      exact absurd h (by simp)
  | cons c t ih =>
    rw [findSub_cons] at h
    by_cases hpre : pat.isPrefixOf (c :: t) = true
    · rw [if_pos hpre] at h
      injection h with h
      subst h
      exact ⟨by simpa [occursAt] using hpre, by omega⟩
    · rw [if_neg hpre] at h
      cases hft : findSub t pat with
      | none => rw [hft] at h; exact absurd h (by simp)
      | some i' =>
        rw [hft] at h
        simp only [Option.map_some', Option.some.injEq] at h
        subst h
        obtain ⟨hocc, hmin⟩ := ih hft
        refine ⟨by simpa [occursAt] using hocc, ?_⟩
        intro j hj
        cases j with
        | zero => simpa [occursAt] using hpre
        | succ j' =>
          have hlt : j' < i' := by omega
          simpa [occursAt] using hmin j' hlt

/-- When `findSub` fails there is no occurrence at all. -/
theorem findSub_none {hay pat : List Char} (h : findSub hay pat = none) :
    ∀ j, ¬occursAt hay pat j := by
  induction hay with
  | nil =>
    intro j
    by_cases hp : pat = ([] : List Char)
    · rw [findSub_nil, if_pos hp] at h
      exact absurd h (by simp)
    · cases pat with
      | nil => exact absurd rfl hp
      | cons p ps => simp [occursAt, List.isPrefixOf]
  | cons c t ih =>
    intro j
    rw [findSub_cons] at h
    by_cases hpre : pat.isPrefixOf (c :: t) = true
    · rw [if_pos hpre] at h
      exact absurd h (by simp)
    · rw [if_neg hpre] at h
      have hft : findSub t pat = none := by
        cases hx : findSub t pat with
        | none => rfl
        | some v => rw [hx] at h; exact absurd h (by simp)
      cases j with
      | zero => simpa [occursAt] using hpre
      | succ j' => simpa [occursAt] using ih hft j'

/-- C10: behaviour of `replace_xml_field`.  When the start tag is absent, or
no end tag follows it, the input is returned completely unchanged (so apply
never inserts a metadata element that the base image XML lacks).  When both
are found, the result keeps every character up to and including the first
`<field>` occurrence, splices `value` over the old content span, and keeps
everything from the first following `</field>` on — and the positions used
are exactly the first occurrences. -/
theorem replace_xml_field_spec (xml fieldName value : List Char) :
    (findSub xml ('<' :: (fieldName ++ ['>'])) = none →
        replace_xml_field xml fieldName value = xml) ∧
      (∀ s, findSub xml ('<' :: (fieldName ++ ['>'])) = some s →
        (findSub (xml.drop (s + ('<' :: (fieldName ++ ['>'])).length))
              ('<' :: '/' :: (fieldName ++ ['>'])) = none →
            replace_xml_field xml fieldName value = xml) ∧
          (∀ e, findSub (xml.drop (s + ('<' :: (fieldName ++ ['>'])).length))
                ('<' :: '/' :: (fieldName ++ ['>'])) = some e →
              (replace_xml_field xml fieldName value =
                xml.take (s + ('<' :: (fieldName ++ ['>'])).length) ++ value ++
                  xml.drop (s + ('<' :: (fieldName ++ ['>'])).length + e)) ∧
                occursAt xml ('<' :: (fieldName ++ ['>'])) s ∧
                (∀ j, j < s → ¬occursAt xml ('<' :: (fieldName ++ ['>'])) j) ∧
                occursAt (xml.drop (s + ('<' :: (fieldName ++ ['>'])).length))
                  ('<' :: '/' :: (fieldName ++ ['>'])) e ∧
                (∀ j, j < e →
                  ¬occursAt (xml.drop (s + ('<' :: (fieldName ++ ['>'])).length))
                    ('<' :: '/' :: (fieldName ++ ['>'])) j))) := by
  refine ⟨?_, ?_⟩
  · intro h
    simp only [replace_xml_field, h]
  · intro s hs
    refine ⟨?_, ?_⟩
    · intro he
      simp only [replace_xml_field, hs, he]
    · intro e he
      refine ⟨?_, (findSub_some hs).1, (findSub_some hs).2,
              (findSub_some he).1, (findSub_some he).2⟩
      simp only [replace_xml_field, hs, he]

/-- C10, witness: a concrete rewrite — `<NAME>x</NAME>` with value `yz`
keeps the tags and replaces only the one-character content span. -/
theorem replace_xml_field_spec_witness :
    replace_xml_field "<NAME>x</NAME>".data "NAME".data "yz".data =
      "<NAME>x</NAME>".data.take 6 ++ "yz".data ++ "<NAME>x</NAME>".data.drop 7 :=
  (((replace_xml_field_spec "<NAME>x</NAME>".data "NAME".data "yz".data).2
      0 (by decide)).2 1 (by decide)).1

/-! ## C5 — chain-base mismatch handling -/

/-- C5: when the selected patch's base descriptor differs from the current
one (under the derived equality), the matching pass returns an error in
normal mode and, in force mode, records a warning, still appends the patch
to the chain and advances the descriptor to the patch's target; a matching
error makes `apply_patch` fail with an empty mutation trace (no base-WIM
copy, no mount, no write), while a successful force-mode match is applied
chain by chain after the single base copy. -/
theorem chain_base_mismatch {K : Type} (sv : SemverLib K) (guid : String)
    (patchList : List (Nat × Manifest)) (st : MatchAcc) (sel : Nat × Manifest)
    (restSorted : List (Nat × Manifest))
    (hsort : stableSort (vle sv) (candidatesOf guid patchList st.consumed st.current) =
      sel :: restSorted)
    (hbeq : st.current.beq sel.2.base_image_info = false) :
    matchIteration sv guid patchList false st =
        some (Except.error (baseNotMatchMsg st.current.index)) ∧
      matchIteration sv guid patchList true st =
        some (Except.ok
          { consumed := sel.1 :: st.consumed
            warnings := st.warnings ++ [baseStatNotMatchMsg st.current.index]
            current := sel.2.target_image_info, chain := st.chain ++ [sel] }) ∧
      (∀ (baseInfos : List ImageInfo) (pl : List (Nat × Manifest))
          (bi : Option Nat) (e : String),
        match_patch sv guid baseInfos pl false = Except.error e →
          apply_patch sv guid baseInfos pl bi false = ([], Except.error e)) ∧
      (∀ (baseInfos : List ImageInfo) (pl : List (Nat × Manifest))
          (w : List String) (mi : List (ImageInfo × List (Nat × Manifest))),
        match_patch sv guid baseInfos pl true = Except.ok (w, mi) → mi ≠ [] →
          apply_patch sv guid baseInfos pl none true =
            (Effect.copyBaseWim ::
              mi.map (fun m => Effect.applyImage m.1.index (m.2.map (fun p => p.1))),
             Except.ok ())) := by
  refine ⟨?_, ?_, ?_, ?_⟩
  · simp only [matchIteration, hsort, hbeq]
    simp
  · simp only [matchIteration, hsort, hbeq]
    simp
  · intro baseInfos pl bi e hmp
    simp only [apply_patch, hmp]
  · intro baseInfos pl w mi hmp hne
    simp only [apply_patch, hmp]
    rw [if_neg (by simpa [List.isEmpty_iff] using hne)]

/-- C5, witness: a concrete mismatching scenario (base descriptor differs
only in name, which the derived equality rejects) evaluated through the
theorem. -/
theorem chain_base_mismatch_witness :
    matchIteration trivSemver "G" [(1, sampleManifest)] false
        { consumed := [], warnings := [], current := sampleInfoA, chain := [] } =
      some (Except.error (baseNotMatchMsg sampleInfoA.index)) ∧
    apply_patch trivSemver "G" [sampleInfoA] [(1, sampleManifest)] none true =
      ([Effect.copyBaseWim, Effect.applyImage sampleTarget.index [1]], Except.ok ()) := by
  have h := chain_base_mismatch trivSemver "G" [(1, sampleManifest)]
    { consumed := [], warnings := [], current := sampleInfoA, chain := [] }
    (1, sampleManifest) [] (by decide) (by decide)
  refine ⟨h.1, ?_⟩
  have happ := h.2.2.2 [sampleInfoA] [(1, sampleManifest)]
    [baseStatNotMatchMsg 1] [(sampleTarget, [(1, sampleManifest)])]
    rfl (by decide)
  simpa using happ

/-! ## C4 — chain resolution refines the claim's selection rule -/

/-- The head of a stable insertion sort is the earliest minimum, provided
`le` is the complement of the transposed strict order. -/
theorem stableSort_head {α : Type} (le lt : α → α → Bool)
    (hlink : ∀ a b, le a b = !(lt b a)) :
    ∀ l : List α, (stableSort le l).head? = firstMinBy lt l := by
  intro l
  induction l with
  | nil => rfl
  | cons a l ih =>
    have hstep : stableSort le (a :: l) = insertLe le a (stableSort le l) := rfl
    rw [hstep]
    cases hs : stableSort le l with
    | nil =>
      have hmin : firstMinBy lt l = none := by rw [← ih, hs]; rfl
      simp [insertLe, firstMinBy, hmin]
    | cons m rest =>
      have hmin : firstMinBy lt l = some m := by rw [← ih, hs]; rfl
      simp only [insertLe, firstMinBy, hmin]
      by_cases hlm : lt m a = true
      · have hle : le a m = false := by rw [hlink, hlm]; rfl
        simp [hle, hlm]
      · have hlm' : lt m a = false := by
          cases h : lt m a
          · rfl
          · exact absurd h hlm
        have hle : le a m = true := by rw [hlink, hlm']; rfl
        simp [hle, hlm']

/-- A computed first-minimum is an element of the list. -/
theorem firstMinBy_mem {α : Type} (lt : α → α → Bool) :
    ∀ l : List α, ∀ m, firstMinBy lt l = some m → m ∈ l := by
  intro l
  induction l with
  | nil => intro m h; exact absurd h (by simp [firstMinBy])
  | cons a l ih =>
    intro m h
    simp only [firstMinBy] at h
    cases hf : firstMinBy lt l with
    | none =>
      rw [hf] at h
      simp only [Option.some.injEq] at h
      subst h
      exact List.mem_cons_self a l
    | some m' =>
      rw [hf] at h
      simp only [Option.some.injEq] at h
      by_cases hlt : lt m' a = true
      · rw [if_pos hlt] at h
        subst h
        exact List.mem_cons_of_mem a (ih m' hf)
      · rw [if_neg hlt] at h
        subst h
        exact List.mem_cons_self a l

/-- Under strictly ascending patch-image indices the claim's
version-then-index minimisation is the earliest version minimum. -/
theorem specSelect_eq_firstMinBy {K : Type} (sv : SemverLib K) :
    ∀ l : List (Nat × Manifest), List.Pairwise (fun a b => a.1 < b.1) l →
      specSelect sv l = firstMinBy (vlt sv) l := by
  intro l
  induction l with
  | nil => intro _; rfl
  | cons c cs ih =>
    intro hp
    have hc : ∀ x ∈ cs, c.1 < x.1 := (List.pairwise_cons.mp hp).1
    have hcs : List.Pairwise (fun a b => a.1 < b.1) cs := (List.pairwise_cons.mp hp).2
    simp only [specSelect, firstMinBy, ih hcs]
    cases hf : firstMinBy (vlt sv) cs with
    | none => rfl
    | some m =>
      have hm : m ∈ cs := firstMinBy_mem (vlt sv) cs m hf
      have hidx : ¬ m.1 < c.1 := by
        have := hc m hm
        omega
      have : lexBetter sv m c = vlt sv m c := by
        unfold lexBetter vlt
        cases hcmp : sv.cmp (sv.key m.2.patch_version) (sv.key c.2.patch_version) with
        | lt => rfl
        | eq => rw [decide_eq_false hidx]; rfl
        | gt => rfl
      simp [this]

/-- One matching pass agrees with the claim's pass. -/
theorem matchIteration_eq_spec {K : Type} (sv : SemverLib K)
    (hswap : ∀ a b : K, (sv.cmp a b).swap = sv.cmp b a)
    (guid : String) (patchList : List (Nat × Manifest))
    (hasc : List.Pairwise (fun a b => a.1 < b.1) patchList)
    (force : Bool) (st : MatchAcc) :
    matchIteration sv guid patchList force st =
      specIteration sv guid patchList force st := by
  have hlink : ∀ a b : Nat × Manifest, vle sv a b = !(vlt sv b a) := by
    intro a b
    unfold vle vlt
    have h := hswap (sv.key a.2.patch_version) (sv.key b.2.patch_version)
    cases hab : sv.cmp (sv.key a.2.patch_version) (sv.key b.2.patch_version) <;>
      rw [hab] at h <;> rw [← h] <;> rfl
  have hasc' : List.Pairwise (fun a b => a.1 < b.1)
      (candidatesOf guid patchList st.consumed st.current) := hasc.filter _
  have hsel : (stableSort (vle sv)
        (candidatesOf guid patchList st.consumed st.current)).head? =
      specSelect sv (candidatesOf guid patchList st.consumed st.current) := by
    rw [stableSort_head (vle sv) (vlt sv) hlink,
      specSelect_eq_firstMinBy sv _ hasc']
  simp only [matchIteration, specIteration]
  cases hs : stableSort (vle sv) (candidatesOf guid patchList st.consumed st.current) with
  | nil =>
    have h2 : specSelect sv (candidatesOf guid patchList st.consumed st.current) = none := by
      rw [← hsel, hs]; rfl
    rw [h2]
  | cons sel rest =>
    have h2 : specSelect sv (candidatesOf guid patchList st.consumed st.current) =
        some sel := by
      rw [← hsel, hs]; rfl
    rw [h2]

/-- The fuelled chain loops agree. -/
theorem matchChainLoop_eq_spec {K : Type} (sv : SemverLib K)
    (hswap : ∀ a b : K, (sv.cmp a b).swap = sv.cmp b a)
    (guid : String) (patchList : List (Nat × Manifest))
    (hasc : List.Pairwise (fun a b => a.1 < b.1) patchList)
    (force : Bool) :
    ∀ (fuel : Nat) (st : MatchAcc),
      matchChainLoop sv guid patchList force fuel st =
        specChainLoop sv guid patchList force fuel st := by
  intro fuel
  induction fuel with
  | zero => intro st; rfl
  | succ n ih =>
    intro st
    simp only [matchChainLoop, specChainLoop]
    rw [matchIteration_eq_spec sv hswap guid patchList hasc force st]
    cases hit : specIteration sv guid patchList force st with
    | none => rfl
    | some r =>
      cases r with
      | error e => rfl
      | ok st' => exact ih st'

/-- The outer loops agree. -/
theorem matchPatchGo_eq_spec {K : Type} (sv : SemverLib K)
    (hswap : ∀ a b : K, (sv.cmp a b).swap = sv.cmp b a)
    (guid : String) (patchList : List (Nat × Manifest))
    (hasc : List.Pairwise (fun a b => a.1 < b.1) patchList)
    (force : Bool) :
    ∀ (infos : List ImageInfo) (consumed : List Nat) (warnings : List String)
      (result : List (ImageInfo × List (Nat × Manifest))),
      matchPatchGo sv guid patchList force infos consumed warnings result =
        specPatchGo sv guid patchList force infos consumed warnings result := by
  intro infos
  induction infos with
  | nil => intro _ _ _; rfl
  | cons info rest ih =>
    intro consumed warnings result
    simp only [matchPatchGo, specPatchGo]
    rw [matchChainLoop_eq_spec sv hswap guid patchList hasc force]
    cases hcl : specChainLoop sv guid patchList force (patchList.length + 1)
        { consumed := consumed, warnings := warnings, current := info, chain := [] } with
    | error e => rfl
    | ok st => exact ih st.consumed st.warnings _

/-- C4: `match_patch` implements exactly the claim's resolver: it repeatedly
selects, among the unconsumed patches whose base WIM GUID and base image
index match the current descriptor, the one with the smallest parsed
version (malformed versions falling back to `0.0.0`), breaking version ties
by ascending patch-image index; each patch is consumed at most once
(globally), and the current descriptor then becomes the patch's
`target_image_info`.  Hypotheses: the external comparator satisfies the
swap law (semver's `Ord` does), and the patch list carries strictly
ascending image indices (as built by `apply_patch`, which enumerates images
`1..=count` in order). -/
theorem match_patch_selects_min_version {K : Type} (sv : SemverLib K)
    (hswap : ∀ a b : K, (sv.cmp a b).swap = sv.cmp b a)
    (base_guid : String) (baseInfos : List ImageInfo)
    (patchList : List (Nat × Manifest))
    (hasc : List.Pairwise (fun a b => a.1 < b.1) patchList) (force : Bool) :
    match_patch sv base_guid baseInfos patchList force =
      matchPatchSpec sv base_guid baseInfos patchList force := by
  unfold match_patch matchPatchSpec
  exact matchPatchGo_eq_spec sv hswap base_guid patchList hasc force baseInfos [] [] []

/-- C4, witness: the refinement evaluated on a concrete two-patch list with
ascending indices under the trivial comparator. -/
theorem match_patch_selects_min_version_witness :
    match_patch trivSemver "G" [sampleInfoA]
        [(1, sampleManifest), (2, sampleManifest)] true =
      matchPatchSpec trivSemver "G" [sampleInfoA]
        [(1, sampleManifest), (2, sampleManifest)] true :=
  match_patch_selects_min_version trivSemver (by decide) "G" [sampleInfoA]
    [(1, sampleManifest), (2, sampleManifest)] (by decide) true

/-! ## C8 — manifest XML round trip: numeral layer -/

/-- A decimal digit survives the character round trip. -/
theorem charDigit_digitChar (d : Nat) (h : d < 10) :
    charDigit (digitChar d) = some d := by
  interval_cases d <;> decide

/-- Digit-wise parsing inverts digit-wise printing. -/
theorem mapM_charDigit_map (l : List Nat) (h : ∀ d ∈ l, d < 10) :
    (l.map digitChar).mapM charDigit = some l := by
  induction l with
  | nil => rfl
  | cons d l ih =>
    rw [List.map_cons, List.mapM_cons,
      charDigit_digitChar d (h d (List.mem_cons_self d l)),
      ih (fun x hx => h x (List.mem_cons_of_mem d hx))]
    rfl

/-- The decimal text layer is lossless. -/
theorem textToNat_natToText (n : Nat) : textToNat (natToText n) = some n := by
  by_cases h0 : n = 0
  · subst h0; rfl
  · unfold natToText
    rw [if_neg h0]
    unfold textToNat
    have hdata : (String.mk (((Nat.digits 10 n).map digitChar).reverse)).data =
        ((Nat.digits 10 n).map digitChar).reverse := rfl
    rw [hdata, ← List.map_reverse]
    rw [mapM_charDigit_map ((Nat.digits 10 n).reverse)
      (fun d hd => Nat.digits_lt_base (by norm_num) (List.mem_reverse.mp hd))]
    simp [Nat.ofDigits_digits]

/-! ## C8 — manifest XML round trip: child lookup -/

/-- `findChild` on a cons. -/
theorem findChild_cons (x : Xml) (xs : List Xml) (t : String) :
    findChild (x :: xs) t = if Xml.tagIs t x = true then some x else findChild xs t := by
  by_cases h : Xml.tagIs t x = true
  · simp [findChild, List.find?_cons_of_pos, h]
  · simp [findChild, List.find?_cons_of_neg, h]

/-- `findChild` over an append scans left first. -/
theorem findChild_append (xs ys : List Xml) (t : String) :
    findChild (xs ++ ys) t = (findChild xs t).or (findChild ys t) := by
  simp [findChild, List.find?_append]

/-- An optional element is found under its own tag. -/
theorem findChild_optStrElems_self (t : String) (o : Option String) :
    findChild (optStrElems t o) t = o.map (strElem t) := by
  cases o with
  | none => rfl
  | some s => simp [optStrElems, findChild_cons, Xml.tagIs, strElem, findChild]

/-- An optional element never matches another tag. -/
theorem findChild_optStrElems_ne (t' t : String) (h : (t' == t) = false)
    (o : Option String) : findChild (optStrElems t' o) t = none := by
  cases o with
  | none => rfl
  | some s => simp [optStrElems, findChild_cons, Xml.tagIs, strElem, findChild, h]

/-- `childrenWithTag` distributes over append. -/
theorem childrenWithTag_append (xs ys : List Xml) (t : String) :
    childrenWithTag (xs ++ ys) t = childrenWithTag xs t ++ childrenWithTag ys t := by
  simp [childrenWithTag, List.filter_append]

/-- A block of elements all carrying tag `t` is kept whole. -/
theorem childrenWithTag_map_self {α : Type} (t : String) (f : α → Xml)
    (hf : ∀ a, Xml.tagIs t (f a) = true) (l : List α) :
    childrenWithTag (l.map f) t = l.map f := by
  simp only [childrenWithTag, List.filter_map]
  rw [List.filter_eq_self.mpr]
  intro a _
  exact hf a

/-- A block of elements all carrying another tag is dropped whole. -/
theorem childrenWithTag_map_ne {α : Type} (t : String) (f : α → Xml)
    (hf : ∀ a, Xml.tagIs t (f a) = false) (l : List α) :
    childrenWithTag (l.map f) t = [] := by
  simp only [childrenWithTag]
  rw [List.filter_eq_nil_iff.mpr]
  intro a ha
  obtain ⟨x, _, rfl⟩ := List.mem_map.mp ha
  simp [hf x]

/-- A homogeneous block parses element-wise. -/
theorem mapM_fromXml_map {α : Type} (f : α → Xml) (g : Xml → Option α)
    (hg : ∀ a, g (f a) = some a) (l : List α) :
    (l.map f).mapM g = some l := by
  induction l with
  | nil => rfl
  | cons a l ih =>
    rw [List.map_cons, List.mapM_cons, hg a, ih]
    rfl

/-! ## C8 — manifest XML round trip: per-structure inversions -/

/-- The tag of a string element. -/
theorem tagIs_strElem (t t' s : String) : Xml.tagIs t' (strElem t s) = (t == t') := rfl

/-- The tag of a numeric element. -/
theorem tagIs_natElem (t t' : String) (n : Nat) :
    Xml.tagIs t' (natElem t n) = (t == t') := rfl

/-- The tag of a serialized image descriptor. -/
theorem tagIs_imageInfo_toXml (t t' : String) (i : ImageInfo) :
    Xml.tagIs t' (ImageInfo.toXml t i) = (t == t') := rfl

/-- The tag of a serialized operation set. -/
theorem tagIs_operations_toXml (t' : String) (o : Operations) :
    Xml.tagIs t' (Operations.toXml o) = ("operations" == t') := rfl

/-- The text of a string element. -/
theorem textOf_strElem (t s : String) : textOf (strElem t s) = some s := rfl

/-- The text of a numeric element. -/
theorem textOf_natElem (t : String) (n : Nat) :
    textOf (natElem t n) = some (natToText n) := rfl

/-- A `Delete`/`Add` element parses back. -/
theorem pathOperation_fromXml_toXml (tag : String) (p : PathOperation) :
    PathOperation.fromXml (PathOperation.toXml tag p) = some p := by
  obtain ⟨pa, sz⟩ := p
  simp [PathOperation.fromXml, PathOperation.toXml, strField, natField,
    findChild_cons, findChild, tagIs_strElem, tagIs_natElem, textOf_strElem,
    textOf_natElem, textToNat_natToText]

/-- A `Modify` element parses back. -/
theorem modifyOperation_fromXml_toXml (m : ModifyOperation) :
    ModifyOperation.fromXml (ModifyOperation.toXml m) = some m := by
  obtain ⟨pa, sz, st⟩ := m
  simp [ModifyOperation.fromXml, ModifyOperation.toXml, strField, natField,
    findChild_cons, findChild, tagIs_strElem, tagIs_natElem, textOf_strElem,
    textOf_natElem, textToNat_natToText]

/-- An image descriptor parses back under any element tag. -/
theorem imageInfo_fromXml_toXml (tag : String) (i : ImageInfo) :
    ImageInfo.fromXml (ImageInfo.toXml tag i) = some i := by
  obtain ⟨idx, nm, dn, ds, dd, fl, dc, fc, hb, tb⟩ := i
  cases nm <;> cases dn <;> cases ds <;> cases dd <;> cases fl <;>
    simp [ImageInfo.fromXml, ImageInfo.toXml, optStrElems, attrOf, optStrField,
      strField, natField, findChild_cons, findChild, tagIs_strElem, tagIs_natElem,
      textOf_strElem, textOf_natElem, textToNat_natToText, List.find?]

/-- The grouped operation lists parse back, in order. -/
theorem operations_fromXml_toXml (o : Operations) :
    Operations.fromXml (Operations.toXml o) = some o := by
  obtain ⟨dels, adds, mods⟩ := o
  have hD : childrenWithTag
      ((dels.map (PathOperation.toXml "Delete") ++ adds.map (PathOperation.toXml "Add"))
        ++ mods.map ModifyOperation.toXml) "Delete" =
      dels.map (PathOperation.toXml "Delete") := by
    rw [childrenWithTag_append, childrenWithTag_append,
      childrenWithTag_map_self "Delete" (PathOperation.toXml "Delete") (fun _ => rfl),
      childrenWithTag_map_ne "Delete" (PathOperation.toXml "Add") (fun _ => rfl),
      childrenWithTag_map_ne "Delete" ModifyOperation.toXml (fun _ => rfl)]
    simp
  have hA : childrenWithTag
      ((dels.map (PathOperation.toXml "Delete") ++ adds.map (PathOperation.toXml "Add"))
        ++ mods.map ModifyOperation.toXml) "Add" =
      adds.map (PathOperation.toXml "Add") := by
    rw [childrenWithTag_append, childrenWithTag_append,
      childrenWithTag_map_ne "Add" (PathOperation.toXml "Delete") (fun _ => rfl),
      childrenWithTag_map_self "Add" (PathOperation.toXml "Add") (fun _ => rfl),
      childrenWithTag_map_ne "Add" ModifyOperation.toXml (fun _ => rfl)]
    simp
  have hM : childrenWithTag
      ((dels.map (PathOperation.toXml "Delete") ++ adds.map (PathOperation.toXml "Add"))
        ++ mods.map ModifyOperation.toXml) "Modify" =
      mods.map ModifyOperation.toXml := by
    rw [childrenWithTag_append, childrenWithTag_append,
      childrenWithTag_map_ne "Modify" (PathOperation.toXml "Delete") (fun _ => rfl),
      childrenWithTag_map_ne "Modify" (PathOperation.toXml "Add") (fun _ => rfl),
      childrenWithTag_map_self "Modify" ModifyOperation.toXml (fun _ => rfl)]
    simp
  simp only [Operations.toXml, Operations.fromXml, hD, hA, hM,
    mapM_fromXml_map (PathOperation.toXml "Delete") PathOperation.fromXml
      (pathOperation_fromXml_toXml "Delete") dels,
    mapM_fromXml_map (PathOperation.toXml "Add") PathOperation.fromXml
      (pathOperation_fromXml_toXml "Add") adds,
    mapM_fromXml_map ModifyOperation.toXml ModifyOperation.fromXml
      modifyOperation_fromXml_toXml mods]
  rfl

/-- C8: serializing a manifest with `to_xml` and parsing the result with
`from_xml` restores every field, including the order of the Delete/Add/
Modify operation lists and the optional descriptor fields (absent stays
absent). -/
theorem manifest_xml_round_trip (m : PatchManifest) :
    PatchManifest.from_xml m.to_xml = some m := by
  obtain ⟨i, nm, pv, ts, tv, au, de, bi, ti, ops⟩ := m
  simp [PatchManifest.to_xml, PatchManifest.from_xml, strField, findChild_cons,
    findChild, tagIs_strElem, tagIs_imageInfo_toXml, tagIs_operations_toXml,
    textOf_strElem, imageInfo_fromXml_toXml, operations_fromXml_toXml]

end WimPatch
